import Mathlib

/-!
Verification of the gtfobins-cli lookup/search/render pipeline (`src/gtfo/cli.py`).

The record store (a directory of one JSON file per binary) is modelled as an
association list from binary names to records.  All terminal output is
modelled as a list of semantic output events, one per printed block, carrying
the un-styled message text (the colorama/`Template` styling is a pure
presentation transform over that text).  File reads are modelled as a trace of
the record names whose backing file is opened.
-/

namespace Gtfo

/-! ### Strings: Python-compatible primitives

Python compares strings lexicographically by code point, lowercases them with
`str.lower`, and tests substrings with `in`.  We model these on `List Char`
with executable Boolean functions and bridge them to Mathlib's `String` order
for readable theorem statements.
-/

/-- Lexicographic (code-point) comparison of character lists, as Python
compares strings. -/
def charsLe : List Char → List Char → Bool
  | [], _ => true
  | _ :: _, [] => false
  | x :: xs, y :: ys => if x < y then true else if y < x then false else charsLe xs ys

/-- `strLe a b` models Python's `a <= b` on strings. -/
def strLe (a b : String) : Prop := charsLe a.data b.data = true

instance : DecidableRel strLe := fun a b => by unfold strLe; infer_instance

/-- Models Python `str.lower` (ASCII case folding, which covers every stored
binary name). -/
def lowerStr (s : String) : String := String.mk (s.data.map Char.toLower)

/-- Models Python `str.upper` (ASCII case folding). -/
def upperStr (s : String) : String := String.mk (s.data.map Char.toUpper)

/-- `leadsList q c` is true when `q` is an initial run of `c`. -/
def leadsList : List Char → List Char → Bool
  | [], _ => true
  | _ :: _, [] => false
  | x :: xs, y :: ys => x == y && leadsList xs ys

/-- `containsList q c` models Python's substring test `q in c`. -/
def containsList (q c : List Char) : Bool :=
  leadsList q c ||
    (match c with
     | [] => false
     | _ :: ys => containsList q ys)

/-! ### The similarity ratio of `difflib.SequenceMatcher`

`SequenceMatcher(None, a, b).ratio()` is `2 * M / (len a + len b)` where `M`
is the total size of the matching blocks found by repeatedly taking the
longest common contiguous run (earliest in `a`, then earliest in `b`) and
recursing on the pieces to its left and to its right.  (The `autojunk`
popularity heuristic only fires for second arguments of length ≥ 200, far
beyond any stored binary name, and is not modelled.)  The recursion depth is
bounded by `a.length`, so it is implemented with an explicit fuel that is
proved sufficient (`matchedSizeFuel_congr`).
-/

/-- Length of the common initial run of two character lists. -/
def commonRunLen : List Char → List Char → Nat
  | x :: xs, y :: ys => if x = y then commonRunLen xs ys + 1 else 0
  | _, _ => 0

/-- The longest matching block `(i, j, k)` of two character lists:
`a.drop i` and `b.drop j` agree on their first `k` characters, `k` is
maximal, and among maximal blocks `i` and then `j` are smallest — the
contract of `difflib`'s `find_longest_match`. -/
def bestTriple (a b : List Char) : Nat × Nat × Nat :=
  (List.range (a.length + 1)).foldl (fun best i =>
    (List.range (b.length + 1)).foldl (fun best j =>
      let k := commonRunLen (a.drop i) (b.drop j)
      if best.2.2 < k then (i, j, k) else best) best) (0, 0, 0)

/-- Total size of the recursive matching blocks, with explicit fuel. -/
def matchedSizeFuel : Nat → List Char → List Char → Nat
  | 0, _, _ => 0
  | fuel + 1, a, b =>
    let t := bestTriple a b
    if t.2.2 = 0 then 0
    else
      matchedSizeFuel fuel (a.take t.1) (b.take t.2.1) + t.2.2 +
        matchedSizeFuel fuel (a.drop (t.1 + t.2.2)) (b.drop (t.2.1 + t.2.2))

/-- Total size of the matching blocks of `difflib.SequenceMatcher`
(`a.length + 1` fuel is enough, see `matchedSizeFuel_congr`). -/
def matchedSize (a b : List Char) : Nat := matchedSizeFuel (a.length + 1) a b

/-- `SequenceMatcher(None, a, b).ratio()`: `2 M / (la + lb)`, and `1` for two
empty sequences, exactly as `difflib._calculate_ratio`. -/
def simRatio (a b : List Char) : ℚ :=
  if a.length + b.length = 0 then 1 else mkRat (2 * matchedSize a b) (a.length + b.length)

/-! ### The fuzzy matcher (`fuzzy_match` in `cli.py`) -/

/-- The score `fuzzy_match` assigns one candidate, from the body of its
`for` loop: `1.0` on a (lowercased) exact match, `0.9` on a substring match,
and the `SequenceMatcher` ratio of the lowercased strings otherwise. -/
def fscore (query choice : String) : ℚ :=
  let ql := (lowerStr query).data
  let cl := (lowerStr choice).data
  if containsList ql cl then (if ql = cl then 1 else mkRat 9 10)
  else simRatio ql cl

/-- The sort key order of `fuzzy_match`: Python's
`sorted(results, key=lambda x: (-x[1], x[0]))` puts `x` before `y` when `x`
has the larger score, with score ties broken by name. -/
def keyLe (x y : String × ℚ) : Prop :=
  y.2 < x.2 ∨ (x.2 = y.2 ∧ strLe x.1 y.1)

instance : DecidableRel keyLe := fun x y => by unfold keyLe; infer_instance

/-- `fuzzy_match(query, choices, threshold)` from `cli.py` (the Python
default threshold is `0.4 = mkRat 2 5`, passed explicitly by our callers). -/
def fuzzy_match (query : String) (choices : List String) (threshold : ℚ) : List String :=
  let results := choices.filterMap (fun choice =>
    let score := fscore query choice
    if threshold ≤ score then some (choice, score) else none)
  (List.insertionSort keyLe results).map Prod.fst

/-! ### The data model and the record store -/

/-- One technique entry of a record: mandatory `code`, optional
`description`. -/
structure TechniqueEntry where
  code : String
  description : Option String
deriving DecidableEq, Repr

/-- One binary record: optional top-level `description` and the ordered
`functions` mapping from category name to its entries (Python dicts preserve
insertion order). -/
structure BinaryRecord where
  description : Option String
  functions : List (String × List TechniqueEntry)
deriving DecidableEq, Repr

/-- The record store: the data directory, as an association list from binary
name (the JSON file's stem) to its parsed record.  Distinct files have
distinct names, which theorems assume as a `Nodup` hypothesis where needed. -/
abbrev Store := List (String × BinaryRecord)

/-- Existence check plus load of one record file (`data_dir / f"{binary}.json"`). -/
def lookupStore (store : Store) (binary : String) : Option BinaryRecord :=
  (store.find? (fun nr => nr.1 == binary)).map Prod.snd

/-- The closed category enumeration `EXPLOIT_TYPES` of `cli.py`. -/
def EXPLOIT_TYPES : List String :=
  ["shell", "command", "reverse-shell", "non-interactive-reverse-shell",
   "bind-shell", "non-interactive-bind-shell", "file-upload", "file-download",
   "file-write", "file-read", "library-load", "suid", "sudo", "capabilities",
   "limited-suid"]

/-- `get_all_binaries()`: the sorted list of file stems of the data
directory. -/
def get_all_binaries (store : Store) : List String :=
  List.insertionSort strLe (store.map Prod.fst)

/-- `get_binaries_with_type(exploit_type)`: opens every record file and
collects, sorted, the stems whose `functions` mapping contains the key. -/
def get_binaries_with_type (store : Store) (exploit_type : String) : List String :=
  List.insertionSort strLe
    ((store.filter (fun nr => nr.2.functions.any (fun kv => kv.1 == exploit_type))).map Prod.fst)

/-! ### Terminal output events -/

/-- One printed block, by presentation kind, carrying the un-styled text. -/
inductive OutEvent where
  /-- An `info`-template line (`[ * ] text`). -/
  | infoMsg (text : String)
  /-- A `fail`-template line (`[ - ] text`). -/
  | failMsg (text : String)
  /-- A `title`-template block (the upper-cased category banner). -/
  | titleMsg (text : String)
  /-- A `description`-template line (dim `# text`). -/
  | descMsg (text : String)
  /-- A technique's code, printed through the syntax highlighter. -/
  | codeBlock (code : String)
  /-- The visual divider between entries of one category. -/
  | divider
  /-- One row of the column layout of `print_binary_list`. -/
  | rowMsg (text : String)
  /-- An empty `print()`. -/
  | blank
  /-- The hand-off to the interactive prompt loop (outside this model). -/
  | enterInteractive
deriving DecidableEq, Repr

/-- The events of one technique entry: optional description, then the code
block. -/
def entryEvents (e : TechniqueEntry) : List OutEvent :=
  (match e.description with
   | some d => [OutEvent.descMsg d]
   | none => []) ++ [OutEvent.codeBlock e.code]

/-- The inner `for idx, code in enumerate(...)` loop of `display_binary`:
each entry's events, with a divider after every entry except the last. -/
def renderEntries : List TechniqueEntry → List OutEvent
  | [] => []
  | [e] => entryEvents e
  | e :: f :: rest => entryEvents e ++ OutEvent.divider :: renderEntries (f :: rest)

/-- The outer `for vector in vectors` loop of `display_binary`: a title per
category followed by its entries. -/
def renderCats (functions : List (String × List TechniqueEntry)) : List OutEvent :=
  functions.flatMap (fun kv => OutEvent.titleMsg (upperStr kv.1) :: renderEntries kv.2)

/-- The header of a found record: the `Supplied binary:` info line, then the
top-level description when present. -/
def headerEvents (binary : String) (rec : BinaryRecord) : List OutEvent :=
  OutEvent.infoMsg ("Supplied binary: " ++ binary) ::
    (match rec.description with
     | some d => [OutEvent.descMsg d]
     | none => [])

/-- What one `display_binary` call did: its printed events, its Python
return value, and the record files it opened. -/
structure DisplayResult where
  events : List OutEvent
  rendered : Bool
  reads : List String
deriving DecidableEq, Repr

/-- Python truthiness of an optional string flag: `None` and `""` are
falsy. -/
def truthy : Option String → Bool
  | none => false
  | some s => !(s == "")

/-- `display_binary(binary, filter_type)` from `cli.py`. -/
def display_binary (store : Store) (binary : String) (filter_type : Option String) :
    DisplayResult :=
  match lookupStore store binary with
  | none => ⟨[OutEvent.failMsg ("Sorry, couldn't find anything for " ++ binary)], false, []⟩
  | some record =>
    if truthy filter_type then
      let ft := filter_type.getD ""
      let vectors := record.functions.filter (fun kv => kv.1 == ft)
      if vectors.isEmpty then
        ⟨headerEvents binary record ++
          [OutEvent.failMsg ("No '" ++ ft ++ "' techniques for " ++ binary)], false, [binary]⟩
      else
        ⟨headerEvents binary record ++ renderCats vectors ++
          [OutEvent.infoMsg "Goodbye, friend."], true, [binary]⟩
    else
      ⟨headerEvents binary record ++ renderCats record.functions ++
        [OutEvent.infoMsg "Goodbye, friend."], true, [binary]⟩

/-! ### The column layout (`print_binary_list`) -/

/-- Left-justify to `n` characters with spaces, Python `str.ljust`. -/
def ljust (s : String) (n : Nat) : String :=
  s ++ String.mk (List.replicate (n - s.length) ' ')

/-- The rows `binaries[i:i+per_row]` of Python's
`for i in range(0, len(binaries), per_row)`, with fuel (one element is
consumed per step, so `l.length` fuel is enough; Python raises on step 0,
modelled as no rows). -/
def chunksFuel (fuel n : Nat) (l : List α) : List (List α) :=
  match fuel with
  | 0 => []
  | fuel + 1 =>
    if n = 0 ∨ l.isEmpty then []
    else l.take n :: chunksFuel fuel n (l.drop n)

/-- `print_binary_list(binaries, columns=4)` from `cli.py`, as events. -/
def print_binary_list (binaries : List String) (columns : Nat) : List OutEvent :=
  if binaries.isEmpty then [OutEvent.failMsg "No binaries found."]
  else
    let max_len := (binaries.map String.length).foldl Nat.max 0 + 2
    (chunksFuel binaries.length columns binaries).map (fun row =>
      OutEvent.rowMsg ("  " ++ String.join (row.map (fun b => ljust b max_len))))

/-! ### The session driver (`run`) -/

/-- The parsed command line of one invocation. -/
structure Args where
  binary : Option String
  search : Option String
  exploit_type : Option String
  interactive : Bool
  list_all : Bool
deriving DecidableEq, Repr

/-- What one `run` invocation did: its printed events and the record files
it read. -/
structure RunResult where
  events : List OutEvent
  reads : List String
deriving DecidableEq, Repr

/-- `run()` from `cli.py`, on parsed arguments: interactive, list, search
and filter modes in their source order, then single-binary display.  When the
filter branch has returned, `args.exploit_type` is falsy, which `run` still
passes on to `display_binary` as `filter_type`. -/
def run (store : Store) (args : Args) : RunResult :=
  if args.interactive then ⟨[OutEvent.enterInteractive], []⟩
  else if args.list_all then
    let binaries := get_all_binaries store
    ⟨OutEvent.infoMsg ("Available binaries (" ++ toString binaries.length ++ "):") ::
      OutEvent.blank :: print_binary_list binaries 4, []⟩
  else if truthy args.search then
    let term := args.search.getD ""
    let binaries := get_all_binaries store
    let found := fuzzy_match term binaries (mkRat 2 5)
    if found.isEmpty then
      ⟨[OutEvent.failMsg ("No binaries matching '" ++ term ++ "'")], []⟩
    else
      ⟨OutEvent.infoMsg
          ("Search results for '" ++ term ++ "' (" ++ toString found.length ++ " matches):") ::
        OutEvent.blank :: print_binary_list found 4, []⟩
  else if truthy args.exploit_type then
    let ft := args.exploit_type.getD ""
    if ft ∈ EXPLOIT_TYPES then
      let binaries := get_binaries_with_type store ft
      if binaries.isEmpty then
        ⟨[OutEvent.failMsg ("No binaries with '" ++ ft ++ "'")], store.map Prod.fst⟩
      else
        ⟨OutEvent.infoMsg
            ("Binaries with '" ++ ft ++ "' (" ++ toString binaries.length ++ "):") ::
          OutEvent.blank :: print_binary_list binaries 4, store.map Prod.fst⟩
    else
      ⟨[OutEvent.failMsg ("Unknown type '" ++ ft ++ "'"),
        OutEvent.infoMsg ("Valid types: " ++ String.intercalate ", " EXPLOIT_TYPES)], []⟩
  else
    if truthy args.binary then
      let d := display_binary store (args.binary.getD "") args.exploit_type
      ⟨d.events, d.reads⟩
    else
      ⟨[OutEvent.failMsg "No binary specified. Use -h for help."], []⟩

/-! ### Test fixtures (hand-built stores for witnesses) -/

/-- A record in the shape of the spec's `find.json` example, with a
two-entry category. -/
def findRec : BinaryRecord :=
  ⟨some "Search for files in a directory hierarchy.",
   [("shell", [⟨"find . -exec /bin/sh ; -quit", none⟩]),
    ("suid", [⟨"./find . -exec /bin/sh -p ; -quit", some "SUID variant"⟩,
              ⟨"./find . -exec /bin/id ; -quit", none⟩])]⟩

/-- A second fixture record with a single, different category. -/
def fileRec : BinaryRecord :=
  ⟨none, [("file-read", [⟨"file -f file_to_read", none⟩])]⟩

/-- A two-record fixture store. -/
def fixtureStore : Store := [("find", findRec), ("file", fileRec)]

/-- A record whose only category is present but has an empty entry list. -/
def emptySudoRec : BinaryRecord := ⟨none, [("sudo", [])]⟩

/-- A one-record store around `emptySudoRec`. -/
def emptySudoStore : Store := [("vim", emptySudoRec)]

/-- The raw code text carried by a code-block event, if any. -/
def codeOf : OutEvent → Option String
  | OutEvent.codeBlock c => some c
  | _ => none

/-- Whether an event is technique content (a category title, a code block,
or a divider). -/
def isTechEvent : OutEvent → Bool
  | OutEvent.titleMsg _ => true
  | OutEvent.codeBlock _ => true
  | OutEvent.divider => true
  | _ => false

/-- Whether an event is a failure-template message. -/
def isFailEvent : OutEvent → Bool
  | OutEvent.failMsg _ => true
  | _ => false

/-- The command line `gtfo find -f shell`: a binary name together with a
valid category filter (fields: binary, search, exploit_type, interactive,
list_all). -/
def argsBinaryAndFilter : Args := ⟨some "find", none, some "shell", false, false⟩

/-- The command line `gtfo -f ""`: an empty (hence falsy) filter value
(fields: binary, search, exploit_type, interactive, list_all). -/
def argsEmptyFilter : Args := ⟨none, none, some "", false, false⟩

/-- The command line `gtfo -f nope`: a nonempty filter value outside the
enumeration (fields: binary, search, exploit_type, interactive, list_all). -/
def argsInvalidFilter : Args := ⟨none, none, some "nope", false, false⟩

/-! ## Helper lemmas -/

/-! ### Bridging `charsLe`/`strLe` to Mathlib's `String` order -/

theorem charsLe_iff_not_lt : ∀ a b : List Char, charsLe a b = true ↔ ¬ b < a
  | [], b => iff_of_true rfl (fun h => by cases h)
  | x :: xs, [] => iff_of_false (by simp [charsLe]) (fun h => h List.Lex.nil)
  | x :: xs, y :: ys => by
    show (if x < y then true else if y < x then false else charsLe xs ys) = true ↔ _
    by_cases hxy : x < y
    · simp only [hxy, if_true]
      refine iff_of_true (by simp) (fun h => ?_)
      cases h with
      | rel h => exact absurd h (asymm hxy)
      | cons h => exact absurd hxy (lt_irrefl _)
    · by_cases hyx : y < x
      · simp only [hxy, hyx, if_false, if_true]
        exact iff_of_false (by simp) (fun h => h (List.Lex.rel hyx))
      · have hxyeq : x = y := le_antisymm (not_lt.mp hyx) (not_lt.mp hxy)
        subst hxyeq
        simp only [lt_irrefl, if_false]
        rw [charsLe_iff_not_lt xs ys]
        constructor
        · intro h hlt
          cases hlt with
          | rel h1 => exact absurd h1 (lt_irrefl _)
          | cons h1 => exact h h1
        · intro h hlt
          exact h (List.Lex.cons hlt)

theorem strLe_iff {a b : String} : strLe a b ↔ a ≤ b := by
  rw [strLe, charsLe_iff_not_lt]
  constructor
  · intro h
    exact not_lt.mp (fun hba => h (String.lt_iff_toList_lt.mp hba))
  · intro h hba
    exact absurd h (not_le.mpr (String.lt_iff_toList_lt.mpr hba))

instance : IsTrans String strLe :=
  ⟨fun _ _ _ hab hbc => strLe_iff.mpr (le_trans (strLe_iff.mp hab) (strLe_iff.mp hbc))⟩

instance : IsTotal String strLe :=
  ⟨fun a b => by
    rcases le_total a b with h | h
    · exact Or.inl (strLe_iff.mpr h)
    · exact Or.inr (strLe_iff.mpr h)⟩

instance : IsTrans (String × ℚ) keyLe :=
  ⟨fun a b c hab hbc => by
    rcases hab with h1 | ⟨h1, h1n⟩ <;> rcases hbc with h2 | ⟨h2, h2n⟩
    · exact Or.inl (lt_trans h2 h1)
    · exact Or.inl (h2 ▸ h1)
    · exact Or.inl (h1 ▸ h2)
    · exact Or.inr ⟨h1.trans h2, IsTrans.trans _ _ _ h1n h2n⟩⟩

/-! ### Bounds for the `SequenceMatcher` ratio -/

theorem foldl_preserve {α β : Type} (P : β → Prop) (f : β → α → β) :
    ∀ (l : List α) (init : β), P init → (∀ x ∈ l, ∀ st, P st → P (f st x)) →
      P (l.foldl f init)
  | [], _, h, _ => h
  | x :: xs, init, h, hstep =>
    foldl_preserve P f xs (f init x) (hstep x (List.mem_cons_self x xs) init h)
      (fun y hy st hst => hstep y (List.mem_cons_of_mem x hy) st hst)

theorem commonRunLen_le_left : ∀ a b : List Char, commonRunLen a b ≤ a.length
  | [], _ => Nat.zero_le _
  | _ :: _, [] => Nat.zero_le _
  | x :: xs, y :: ys => by
    show (if x = y then commonRunLen xs ys + 1 else 0) ≤ xs.length + 1
    split
    · exact Nat.succ_le_succ (commonRunLen_le_left xs ys)
    · exact Nat.zero_le _

theorem commonRunLen_le_right : ∀ a b : List Char, commonRunLen a b ≤ b.length
  | [], _ => Nat.zero_le _
  | _ :: _, [] => Nat.zero_le _
  | x :: xs, y :: ys => by
    show (if x = y then commonRunLen xs ys + 1 else 0) ≤ ys.length + 1
    split
    · exact Nat.succ_le_succ (commonRunLen_le_right xs ys)
    · exact Nat.zero_le _

/-- The block returned by `bestTriple` lies inside both lists. -/
theorem bestTriple_le (a b : List Char) :
    (bestTriple a b).1 + (bestTriple a b).2.2 ≤ a.length ∧
    (bestTriple a b).2.1 + (bestTriple a b).2.2 ≤ b.length := by
  unfold bestTriple
  refine foldl_preserve
    (fun t : Nat × Nat × Nat => t.1 + t.2.2 ≤ a.length ∧ t.2.1 + t.2.2 ≤ b.length) _ _ _
    ⟨Nat.zero_le _, Nat.zero_le _⟩ ?_
  intro i hi st hst
  refine foldl_preserve
    (fun t : Nat × Nat × Nat => t.1 + t.2.2 ≤ a.length ∧ t.2.1 + t.2.2 ≤ b.length) _ _ _ hst ?_
  intro j hj st2 hst2
  dsimp only
  split
  · have h1 := commonRunLen_le_left (a.drop i) (b.drop j)
    have h2 := commonRunLen_le_right (a.drop i) (b.drop j)
    rw [List.length_drop] at h1
    rw [List.length_drop] at h2
    have hi' : i < a.length + 1 := List.mem_range.mp hi
    have hj' : j < b.length + 1 := List.mem_range.mp hj
    exact ⟨by dsimp only; omega, by dsimp only; omega⟩
  · exact hst2

/-- The matched total never exceeds either sequence's length (whatever the
fuel). -/
theorem matchedSizeFuel_le : ∀ (fuel : Nat) (a b : List Char),
    matchedSizeFuel fuel a b ≤ a.length ∧ matchedSizeFuel fuel a b ≤ b.length
  | 0, _, _ => ⟨Nat.zero_le _, Nat.zero_le _⟩
  | fuel + 1, a, b => by
    have hb := bestTriple_le a b
    simp only [matchedSizeFuel]
    split
    · exact ⟨Nat.zero_le _, Nat.zero_le _⟩
    · have h1 := matchedSizeFuel_le fuel (a.take (bestTriple a b).1)
        (b.take (bestTriple a b).2.1)
      have h2 := matchedSizeFuel_le fuel
        (a.drop ((bestTriple a b).1 + (bestTriple a b).2.2))
        (b.drop ((bestTriple a b).2.1 + (bestTriple a b).2.2))
      rw [List.length_take, List.length_take] at h1
      rw [List.length_drop, List.length_drop] at h2
      exact ⟨by omega, by omega⟩

/-- Any fuel above the first list's length computes the same matched total:
the fuel in `matchedSize` is enough. -/
theorem matchedSizeFuel_congr : ∀ (f g : Nat) (a b : List Char),
    a.length < f → a.length < g → matchedSizeFuel f a b = matchedSizeFuel g a b
  | 0, _, _, _, hf, _ => absurd hf (by omega)
  | _ + 1, 0, _, _, _, hg => absurd hg (by omega)
  | f + 1, g + 1, a, b, hf, hg => by
    have hb := bestTriple_le a b
    simp only [matchedSizeFuel]
    by_cases hk : (bestTriple a b).2.2 = 0
    · rw [if_pos hk, if_pos hk]
    · rw [if_neg hk, if_neg hk]
      have e1 := matchedSizeFuel_congr f g
        (a.take (bestTriple a b).1) (b.take (bestTriple a b).2.1)
        (by rw [List.length_take]; omega) (by rw [List.length_take]; omega)
      have e2 := matchedSizeFuel_congr f g
        (a.drop ((bestTriple a b).1 + (bestTriple a b).2.2))
        (b.drop ((bestTriple a b).2.1 + (bestTriple a b).2.2))
        (by rw [List.length_drop]; omega) (by rw [List.length_drop]; omega)
      rw [e1, e2]

theorem matchedSize_le (a b : List Char) :
    matchedSize a b ≤ a.length ∧ matchedSize a b ≤ b.length :=
  matchedSizeFuel_le (a.length + 1) a b

theorem simRatio_nonneg (a b : List Char) : 0 ≤ simRatio a b := by
  unfold simRatio
  split
  · exact zero_le_one
  · rw [Rat.mkRat_eq_div]
    positivity

theorem simRatio_le_one (a b : List Char) : simRatio a b ≤ 1 := by
  unfold simRatio
  split
  · exact le_refl 1
  · rename_i h
    have hpos : 0 < a.length + b.length := Nat.pos_of_ne_zero h
    have hm : 2 * matchedSize a b ≤ a.length + b.length := by
      have h1 := matchedSize_le a b
      omega
    rw [Rat.mkRat_eq_div, div_le_one (by exact_mod_cast hpos)]
    exact_mod_cast hm

instance : IsTotal (String × ℚ) keyLe :=
  ⟨fun a b => by
    rcases lt_trichotomy a.2 b.2 with h | h | h
    · exact Or.inr (Or.inl h)
    · rcases total_of strLe a.1 b.1 with hn | hn
      · exact Or.inl (Or.inr ⟨h, hn⟩)
      · exact Or.inr (Or.inr ⟨h.symm, hn⟩)
    · exact Or.inl (Or.inl h)⟩

theorem leadsList_self : ∀ l : List Char, leadsList l l = true
  | [] => rfl
  | x :: xs => by
    show (x == x && leadsList xs xs) = true
    rw [beq_self_eq_true, leadsList_self xs]
    rfl

theorem containsList_self (l : List Char) : containsList l l = true := by
  unfold containsList
  rw [leadsList_self l]
  rfl

/-- Unpacking membership in the pre-sort result list of `fuzzy_match`. -/
theorem mem_fuzzy_results {query : String} {threshold : ℚ} {choices : List String}
    {x : String × ℚ}
    (hx : x ∈ choices.filterMap (fun choice =>
      if threshold ≤ fscore query choice then some (choice, fscore query choice) else none)) :
    x.1 ∈ choices ∧ x.2 = fscore query x.1 ∧ threshold ≤ x.2 := by
  rcases List.mem_filterMap.mp hx with ⟨c, hc, he⟩
  by_cases h : threshold ≤ fscore query c
  · rw [if_pos h] at he
    obtain rfl := Option.some.inj he
    exact ⟨hc, rfl, h⟩
  · rw [if_neg h] at he
    cases he

/-! ## Claim theorems -/

/-- C2: for every query and candidate, the fuzzy matcher's score is computed
case-insensitively: `1.0` when the lowercased candidate equals the lowercased
query; otherwise `0.9` when the lowercased query is a substring of the
lowercased candidate; otherwise the normalized `SequenceMatcher` similarity
ratio between the lowercased strings, which lies in `[0, 1]`. -/
theorem fscore_cases (q c : String) :
    (lowerStr q = lowerStr c → fscore q c = 1) ∧
    (lowerStr q ≠ lowerStr c →
      containsList (lowerStr q).data (lowerStr c).data = true →
      fscore q c = mkRat 9 10) ∧
    (containsList (lowerStr q).data (lowerStr c).data = false →
      fscore q c = simRatio (lowerStr q).data (lowerStr c).data ∧
        0 ≤ fscore q c ∧ fscore q c ≤ 1) := by
  unfold fscore
  refine ⟨?_, ?_, ?_⟩
  · intro h
    have hd : (lowerStr q).data = (lowerStr c).data := by rw [h]
    rw [if_pos (by rw [hd]; exact containsList_self _), if_pos hd]
  · intro hne hc
    have hd : (lowerStr q).data ≠ (lowerStr c).data := fun h => hne (String.ext h)
    rw [if_pos hc, if_neg hd]
  · intro hc
    rw [if_neg (by rw [hc]; simp)]
    exact ⟨rfl, simRatio_nonneg _ _, simRatio_le_one _ _⟩

/-- Witness for C2 at a concrete substring-match input. -/
theorem fscore_cases_witness :
    (lowerStr "FI" ≠ lowerStr "find") ∧
    containsList (lowerStr "FI").data (lowerStr "find").data = true ∧
    fscore "FI" "find" = mkRat 9 10 :=
  ⟨by decide, by decide, (fscore_cases "FI" "find").2.1 (by decide) (by decide)⟩

/-- C3: `fuzzy_match` returns no candidate scoring below the threshold, its
output is sorted by descending score with ties broken by ascending
lexicographic name, and identical inputs yield the identical output
sequence. -/
theorem fuzzy_match_spec (query : String) (choices : List String) (threshold : ℚ) :
    (∀ c, c ∈ fuzzy_match query choices threshold → threshold ≤ fscore query c) ∧
    (fuzzy_match query choices threshold).Pairwise
      (fun a b => fscore query b < fscore query a ∨
        (fscore query a = fscore query b ∧ a ≤ b)) ∧
    fuzzy_match query choices threshold = fuzzy_match query choices threshold := by
  refine ⟨?_, ?_, rfl⟩
  · intro c hc
    simp only [fuzzy_match] at hc
    rcases List.mem_map.mp hc with ⟨x, hx, hx1⟩
    rw [List.mem_insertionSort] at hx
    have h := mem_fuzzy_results hx
    rw [← hx1]
    exact h.2.1 ▸ h.2.2
  · simp only [fuzzy_match]
    rw [List.pairwise_map]
    have hs := List.sorted_insertionSort keyLe
      (choices.filterMap (fun choice =>
        if threshold ≤ fscore query choice then some (choice, fscore query choice) else none))
    refine hs.imp_of_mem ?_
    intro x y hx hy hk
    have hxr := mem_fuzzy_results ((List.mem_insertionSort keyLe).mp hx)
    have hyr := mem_fuzzy_results ((List.mem_insertionSort keyLe).mp hy)
    rcases hk with h | ⟨h, hn⟩
    · left
      rw [← hxr.2.1, ← hyr.2.1]
      exact h
    · right
      exact ⟨by rw [← hxr.2.1, ← hyr.2.1]; exact h, strLe_iff.mp hn⟩

/-- Witness for C3 on the spec's own example search. -/
theorem fuzzy_match_spec_witness :
    ("find" ∈ fuzzy_match "fi" ["find", "file", "grep"] (mkRat 2 5)) ∧
    mkRat 2 5 ≤ fscore "fi" "find" :=
  ⟨by decide, (fuzzy_match_spec "fi" ["find", "file", "grep"] (mkRat 2 5)).1 "find" (by decide)⟩

/-! ### Store lookup lemmas -/

/-- With distinct file names, looking up the name of a stored pair finds
exactly that pair's record. -/
theorem lookup_of_mem_nodup : ∀ {store : Store}, (store.map Prod.fst).Nodup →
    ∀ {pair : String × BinaryRecord}, pair ∈ store → lookupStore store pair.1 = some pair.2
  | [], _, _, hmem => absurd hmem (List.not_mem_nil _)
  | head :: tail, hnd, pair, hmem => by
    rcases List.mem_cons.mp hmem with rfl | htail
    · unfold lookupStore
      rw [List.find?_cons_of_pos _ (by simp)]
      rfl
    · have hne : (head.1 == pair.1) = false := by
        have h1 : head.1 ∉ tail.map Prod.fst := (List.nodup_cons.mp hnd).1
        have h2 : pair.1 ∈ tail.map Prod.fst := List.mem_map_of_mem Prod.fst htail
        exact beq_eq_false_iff_ne.mpr (fun h => h1 (h ▸ h2))
      unfold lookupStore
      rw [List.find?_cons_of_neg _ (by simp [hne])]
      exact lookup_of_mem_nodup (List.nodup_cons.mp hnd).2 htail

/-- A successful lookup comes from a stored pair with that name. -/
theorem mem_of_lookup {store : Store} {n : String} {r : BinaryRecord}
    (h : lookupStore store n = some r) : (n, r) ∈ store := by
  unfold lookupStore at h
  rcases Option.map_eq_some'.mp h with ⟨pair, hfind, hsnd⟩
  have h1 : pair.1 = n := by
    have := List.find?_some hfind
    exact eq_of_beq (by simpa using this)
  have h2 : pair = (n, r) := by
    rw [← h1, ← hsnd]
  exact h2 ▸ List.mem_of_find?_eq_some hfind

/-- C4: for every category `C` of the closed enumeration,
`get_binaries_with_type` returns, in sorted order, exactly the names of
`get_all_binaries` whose loaded record's category mapping contains the key
`C`. -/
theorem names_with_category_spec (store : Store) (C : String)
    (_hC : C ∈ EXPLOIT_TYPES) (hnd : (store.map Prod.fst).Nodup) :
    List.Sorted (· ≤ ·) (get_binaries_with_type store C) ∧
    ∀ n, n ∈ get_binaries_with_type store C ↔
      (n ∈ get_all_binaries store ∧
        ∃ record, lookupStore store n = some record ∧
          C ∈ record.functions.map Prod.fst) := by
  constructor
  · exact (List.sorted_insertionSort strLe _).imp (fun h => strLe_iff.mp h)
  · intro n
    unfold get_binaries_with_type get_all_binaries
    rw [List.mem_insertionSort, List.mem_insertionSort]
    constructor
    · intro hmem
      rcases List.mem_map.mp hmem with ⟨pair, hpair, rfl⟩
      have hfil := List.mem_filter.mp hpair
      refine ⟨List.mem_map_of_mem Prod.fst hfil.1, pair.2,
        lookup_of_mem_nodup hnd hfil.1, ?_⟩
      rcases List.any_eq_true.mp hfil.2 with ⟨kv, hkv, hbeq⟩
      exact List.mem_map.mpr ⟨kv, hkv, eq_of_beq hbeq⟩
    · rintro ⟨hall, record, hlook, hCmem⟩
      refine List.mem_map.mpr ⟨(n, record), List.mem_filter.mpr ⟨mem_of_lookup hlook, ?_⟩, rfl⟩
      rcases List.mem_map.mp hCmem with ⟨kv, hkv, hkv1⟩
      exact List.any_eq_true.mpr ⟨kv, hkv, beq_iff_eq.mpr hkv1⟩

/-- Witness for C4 on the fixture store and the `shell` category. -/
theorem names_with_category_witness :
    ("shell" ∈ EXPLOIT_TYPES) ∧ (fixtureStore.map Prod.fst).Nodup ∧
    List.Sorted (· ≤ ·) (get_binaries_with_type fixtureStore "shell") :=
  ⟨by decide, by decide,
    (names_with_category_spec fixtureStore "shell" (by decide) (by decide)).1⟩

/-! ### Renderer structure lemmas -/

theorem entryEvents_codes (e : TechniqueEntry) :
    (entryEvents e).filterMap codeOf = [e.code] := by
  cases e
  rename_i code desc
  cases desc <;> simp [entryEvents, codeOf]

theorem entryEvents_divider_count (e : TechniqueEntry) :
    (entryEvents e).count OutEvent.divider = 0 := by
  cases e
  rename_i code desc
  cases desc <;> simp [entryEvents]

theorem entryEvents_getLast? (e : TechniqueEntry) :
    (entryEvents e).getLast? = some (OutEvent.codeBlock e.code) := by
  cases e
  rename_i code desc
  cases desc <;> simp [entryEvents]

theorem renderEntries_ne_nil (e : TechniqueEntry) (rest : List TechniqueEntry) :
    renderEntries (e :: rest) ≠ [] := by
  cases rest
  · show entryEvents e ≠ []
    cases e
    rename_i code desc
    cases desc <;> simp [entryEvents]
  · show entryEvents e ++ _ ≠ []
    simp [entryEvents]

/-- Within one category the code blocks are exactly the entries' codes, in
storage order. -/
theorem codesOf_renderEntries : ∀ es : List TechniqueEntry,
    (renderEntries es).filterMap codeOf = es.map TechniqueEntry.code
  | [] => rfl
  | [e] => by
    rw [renderEntries, entryEvents_codes]
    rfl
  | e :: f :: rest => by
    rw [renderEntries, List.filterMap_append, entryEvents_codes]
    show _ ++ (OutEvent.divider :: renderEntries (f :: rest)).filterMap codeOf = _
    rw [List.filterMap_cons]
    show _ ++ (renderEntries (f :: rest)).filterMap codeOf = _
    rw [codesOf_renderEntries (f :: rest)]
    rfl

/-- Within one category there are exactly `k - 1` dividers for `k`
entries. -/
theorem count_divider_renderEntries : ∀ es : List TechniqueEntry,
    (renderEntries es).count OutEvent.divider = es.length - 1
  | [] => rfl
  | [e] => by
    rw [renderEntries, entryEvents_divider_count]
    rfl
  | e :: f :: rest => by
    rw [renderEntries, List.count_append, entryEvents_divider_count,
      List.count_cons_self, count_divider_renderEntries (f :: rest)]
    simp only [List.length_cons]
    omega

/-- A category's event block ends with its last entry's code block: no
divider after the last entry. -/
theorem getLast?_renderEntries : ∀ es : List TechniqueEntry,
    (renderEntries es).getLast? = es.getLast?.map (fun e => OutEvent.codeBlock e.code)
  | [] => rfl
  | [e] => by
    rw [renderEntries, entryEvents_getLast?]
    rfl
  | e :: f :: rest => by
    rw [renderEntries,
      List.getLast?_append_of_ne_nil _ (List.cons_ne_nil _ _),
      show OutEvent.divider :: renderEntries (f :: rest) =
        [OutEvent.divider] ++ renderEntries (f :: rest) from rfl,
      List.getLast?_append_of_ne_nil _ (renderEntries_ne_nil f rest),
      getLast?_renderEntries (f :: rest), List.getLast?_cons_cons]

/-- C5: rendering a found record without a filter prints the header, then
every category in storage order, then the closing message; within each
category the entries appear in storage order with exactly `k - 1` dividers
and no divider after the last entry. -/
theorem display_structure (store : Store) (b : String) (record : BinaryRecord)
    (h : lookupStore store b = some record) :
    (display_binary store b none).events =
      headerEvents b record ++ renderCats record.functions ++
        [OutEvent.infoMsg "Goodbye, friend."] ∧
    ∀ kv ∈ record.functions,
      (renderEntries kv.2).filterMap codeOf = kv.2.map TechniqueEntry.code ∧
      (renderEntries kv.2).count OutEvent.divider = kv.2.length - 1 ∧
      (renderEntries kv.2).getLast? =
        kv.2.getLast?.map (fun e => OutEvent.codeBlock e.code) := by
  constructor
  · unfold display_binary
    rw [h]
    rfl
  · intro kv _
    exact ⟨codesOf_renderEntries kv.2, count_divider_renderEntries kv.2,
      getLast?_renderEntries kv.2⟩

/-- Witness for C5 on the fixture store. -/
theorem display_structure_witness :
    lookupStore fixtureStore "find" = some findRec ∧
    (display_binary fixtureStore "find" none).events =
      headerEvents "find" findRec ++ renderCats findRec.functions ++
        [OutEvent.infoMsg "Goodbye, friend."] :=
  ⟨rfl, (display_structure fixtureStore "find" findRec rfl).1⟩

/-! ### Display-path lemmas -/

theorem headerEvents_nontech (b : String) (record : BinaryRecord) :
    (headerEvents b record).all (fun e => !(isTechEvent e)) = true := by
  unfold headerEvents
  cases hd : record.description <;> simp [isTechEvent]

theorem display_none_eq (store : Store) (b : String) (hnone : lookupStore store b = none)
    (ft : Option String) :
    display_binary store b ft =
      ⟨[OutEvent.failMsg ("Sorry, couldn't find anything for " ++ b)], false, []⟩ := by
  unfold display_binary
  rw [hnone]

theorem filter_keys_eq_nil {functions : List (String × List TechniqueEntry)} {ft : String}
    (h : ft ∉ functions.map Prod.fst) :
    functions.filter (fun kv => kv.1 == ft) = [] := by
  induction functions with
  | nil => rfl
  | cons kv rest ih =>
    simp only [List.map_cons, List.mem_cons, not_or] at h
    rw [List.filter_cons_of_neg]
    · exact ih h.2
    · simp only [beq_iff_eq, decide_eq_true_eq]
      exact fun he => h.1 he.symm

theorem filter_keys_ne_nil {functions : List (String × List TechniqueEntry)} {ft : String}
    (h : ft ∈ functions.map Prod.fst) :
    (functions.filter (fun kv => kv.1 == ft)).isEmpty = false := by
  rcases List.mem_map.mp h with ⟨kv, hkv, hkv1⟩
  have hmem : kv ∈ functions.filter (fun kv => kv.1 == ft) :=
    List.mem_filter.mpr ⟨hkv, beq_iff_eq.mpr hkv1⟩
  have hne := List.ne_nil_of_mem hmem
  cases hfe : (functions.filter (fun kv => kv.1 == ft)).isEmpty
  · rfl
  · exact absurd (List.isEmpty_iff.mp hfe) hne

theorem truthy_some_of_ne {ft : String} (hne : ft ≠ "") : truthy (some ft) = true := by
  unfold truthy
  simp [hne]

theorem display_filter_absent_eq (store : Store) (b ft : String) (record : BinaryRecord)
    (hrec : lookupStore store b = some record) (hne : ft ≠ "")
    (hnot : ft ∉ record.functions.map Prod.fst) :
    display_binary store b (some ft) =
      ⟨headerEvents b record ++
        [OutEvent.failMsg ("No '" ++ ft ++ "' techniques for " ++ b)], false, [b]⟩ := by
  unfold display_binary
  rw [hrec]
  dsimp only
  rw [if_pos (truthy_some_of_ne hne)]
  simp only [Option.getD_some]
  rw [filter_keys_eq_nil hnot]
  rfl

theorem display_filter_present_rendered (store : Store) (b ft : String)
    (record : BinaryRecord) (hrec : lookupStore store b = some record) (hne : ft ≠ "")
    (hmem : ft ∈ record.functions.map Prod.fst) :
    (display_binary store b (some ft)).rendered = true := by
  unfold display_binary
  rw [hrec]
  dsimp only
  rw [if_pos (truthy_some_of_ne hne)]
  simp only [Option.getD_some]
  rw [if_neg (by rw [filter_keys_ne_nil hmem]; exact Bool.false_ne_true)]

theorem display_nofilter_rendered (store : Store) (b : String) (record : BinaryRecord)
    (hrec : lookupStore store b = some record) :
    (display_binary store b none).rendered = true := by
  unfold display_binary
  rw [hrec]
  rfl

/-- C10 (amended): looking up an existing record with a nonempty filter
category that the record's mapping does not contain emits the informational
header naming the binary and the record's description (when present) before
the no-techniques failure message, and signals false. -/
theorem display_header_before_fail (store : Store) (b ft : String) (record : BinaryRecord)
    (hrec : lookupStore store b = some record) (hne : ft ≠ "")
    (hnot : ft ∉ record.functions.map Prod.fst) :
    (display_binary store b (some ft)).events =
      (OutEvent.infoMsg ("Supplied binary: " ++ b) ::
        (match record.description with
         | some d => [OutEvent.descMsg d]
         | none => [])) ++
        [OutEvent.failMsg ("No '" ++ ft ++ "' techniques for " ++ b)] ∧
    (display_binary store b (some ft)).rendered = false := by
  rw [display_filter_absent_eq store b ft record hrec hne hnot]
  exact ⟨rfl, rfl⟩

/-- Witness for C10 (amended) on the fixture store. -/
theorem display_header_before_fail_witness :
    lookupStore fixtureStore "find" = some findRec ∧
    ("sudo" ∉ findRec.functions.map Prod.fst) ∧
    (display_binary fixtureStore "find" (some "sudo")).events =
      (OutEvent.infoMsg "Supplied binary: find" ::
        [OutEvent.descMsg "Search for files in a directory hierarchy."]) ++
        [OutEvent.failMsg "No 'sudo' techniques for find"] ∧
    (display_binary fixtureStore "find" (some "sudo")).rendered = false :=
  ⟨rfl, by decide,
    display_header_before_fail fixtureStore "find" "sudo" findRec rfl (by decide) (by decide)⟩

/-- C10 counterexample: the empty string is a filter category the record
does not contain, yet `display_binary` treats it as no filter at all — it
renders everything, emits no failure message and signals true, where the
claim requires a failure message and a false signal. -/
theorem display_empty_filter_cex :
    ("" ∉ findRec.functions.map Prod.fst) ∧
    (display_binary fixtureStore "find" (some "")).rendered = true ∧
    (display_binary fixtureStore "find" (some "")).events.all
      (fun e => !(isFailEvent e)) = true := by
  exact ⟨by decide, by decide, by decide⟩

/-- C6 (amended): `display_binary` signals false exactly when the binary is
missing or a nonempty filter category is not a key of the record's mapping;
in the latter case it prints the header and the no-techniques failure and no
technique content.  An empty filter value is treated as no filter, and a
filter key that is present is rendered (and signalled true) even when its
entry list is empty. -/
theorem display_rendered_spec (store : Store) (b : String) :
    (lookupStore store b = none →
      ∀ ft, (display_binary store b ft).rendered = false) ∧
    (∀ record, lookupStore store b = some record →
      (∀ ft, ft ≠ "" → ft ∉ record.functions.map Prod.fst →
        (display_binary store b (some ft)).events =
          headerEvents b record ++
            [OutEvent.failMsg ("No '" ++ ft ++ "' techniques for " ++ b)] ∧
        (display_binary store b (some ft)).rendered = false ∧
        (display_binary store b (some ft)).events.all
          (fun e => !(isTechEvent e)) = true) ∧
      (∀ ft, ft ≠ "" → ft ∈ record.functions.map Prod.fst →
        (display_binary store b (some ft)).rendered = true) ∧
      (display_binary store b none).rendered = true) := by
  constructor
  · intro hnone ft
    rw [display_none_eq store b hnone ft]
  · intro record hrec
    refine ⟨?_, ?_, display_nofilter_rendered store b record hrec⟩
    · intro ft hne hnot
      rw [display_filter_absent_eq store b ft record hrec hne hnot]
      refine ⟨rfl, rfl, ?_⟩
      rw [List.all_append, headerEvents_nontech]
      rfl
    · intro ft hne hmem
      exact display_filter_present_rendered store b ft record hrec hne hmem

/-- Witness for C6 (amended) on the fixture store: an absent category
signals false with the failure line, a present category signals true. -/
theorem display_rendered_spec_witness :
    lookupStore fixtureStore "find" = some findRec ∧
    ((display_binary fixtureStore "find" (some "sudo")).events =
      headerEvents "find" findRec ++ [OutEvent.failMsg "No 'sudo' techniques for find"] ∧
      (display_binary fixtureStore "find" (some "sudo")).rendered = false ∧
      (display_binary fixtureStore "find" (some "sudo")).events.all
        (fun e => !(isTechEvent e)) = true) ∧
    (display_binary fixtureStore "find" (some "shell")).rendered = true :=
  ⟨rfl,
    ((display_rendered_spec fixtureStore "find").2 findRec rfl).1 "sudo"
      (by decide) (by decide),
    ((display_rendered_spec fixtureStore "find").2 findRec rfl).2.1 "shell"
      (by decide) (by decide)⟩

/-- C6 counterexample: a record whose `sudo` category is present with an
empty entry list has no `sudo` techniques, yet `display_binary` renders its
title as technique content and signals true, where the claim requires a
failure report and a false signal. -/
theorem display_empty_entries_cex :
    lookupStore emptySudoStore "vim" = some emptySudoRec ∧
    (emptySudoRec.functions.filter (fun kv => kv.1 == "sudo")).flatMap Prod.snd = [] ∧
    (display_binary emptySudoStore "vim" (some "sudo")).rendered = true ∧
    (display_binary emptySudoStore "vim" (some "sudo")).events.any isTechEvent = true := by
  exact ⟨rfl, by decide, by decide, by decide⟩

/-- C7 (amended): for every nonempty filter value outside the closed
enumeration, filter mode reports the invalid value together with the list of
valid values and reads no record file. -/
theorem run_invalid_filter (store : Store) (args : Args) (ft : String)
    (hi : args.interactive = false) (hl : args.list_all = false)
    (hs : truthy args.search = false) (hf : args.exploit_type = some ft)
    (hne : ft ≠ "") (hnot : ft ∉ EXPLOIT_TYPES) :
    run store args =
      ⟨[OutEvent.failMsg ("Unknown type '" ++ ft ++ "'"),
        OutEvent.infoMsg ("Valid types: " ++ String.intercalate ", " EXPLOIT_TYPES)],
       []⟩ := by
  unfold run
  simp only [hi, hl, hs, hf, Bool.false_eq_true, if_false, truthy_some_of_ne hne,
    Option.getD_some, eq_self_iff_true, if_true]
  rw [if_neg hnot]

/-- Witness for C7 (amended) at the unknown value `nope`. -/
theorem run_invalid_filter_witness :
    ("nope" ∉ EXPLOIT_TYPES) ∧
    run fixtureStore argsInvalidFilter =
      ⟨[OutEvent.failMsg ("Unknown type '" ++ "nope" ++ "'"),
        OutEvent.infoMsg ("Valid types: " ++ String.intercalate ", " EXPLOIT_TYPES)],
       []⟩ :=
  ⟨by decide,
    run_invalid_filter fixtureStore argsInvalidFilter "nope" rfl rfl rfl rfl
      (by decide) (by decide)⟩

/-- C7 counterexample: the empty string is a filter value outside the closed
enumeration, but Python truthiness makes `run` skip filter mode entirely: it
reports "No binary specified" and never mentions the invalid value or the
valid-value list. -/
theorem run_empty_filter_cex :
    ("" ∉ EXPLOIT_TYPES) ∧
    run fixtureStore argsEmptyFilter =
      ⟨[OutEvent.failMsg "No binary specified. Use -h for help."], []⟩ := by
  exact ⟨by decide, by decide⟩

/-- C9: on the empty name list the column printer emits the
`No binaries found.` failure and nothing else — in particular no row — and
the maximum-length computation is never reached. -/
theorem print_binary_list_empty (columns : Nat) :
    print_binary_list [] columns = [OutEvent.failMsg "No binaries found."] ∧
    ∀ e ∈ print_binary_list [] columns, ∀ t, e ≠ OutEvent.rowMsg t := by
  constructor
  · rfl
  · intro e he t
    rw [show print_binary_list [] columns = [OutEvent.failMsg "No binaries found."]
      from rfl] at he
    rcases List.mem_singleton.mp he with rfl
    exact fun h => OutEvent.noConfusion h

/-- Witness for C9 at the default column count. -/
theorem print_binary_list_empty_witness :
    print_binary_list [] 4 = [OutEvent.failMsg "No binaries found."] :=
  (print_binary_list_empty 4).1

/-- C1 (code bug evaluation): invoking `run` with binary `find` and the
valid category filter `shell` takes the filter-mode branch: it lists all
binaries having `shell` techniques and reads every record file, but never
renders `find` — no technique content and no `Supplied binary:` header is
printed, although `display_binary` supports exactly this filtered
rendering (and `run` even computes `filter_type = args.exploit_type` on its
display path, which that branch makes unreachable). -/
theorem run_binary_with_filter_takes_filter_mode :
    run fixtureStore argsBinaryAndFilter =
      ⟨[OutEvent.infoMsg "Binaries with 'shell' (1):", OutEvent.blank,
        OutEvent.rowMsg "  find  "], ["find", "file"]⟩ ∧
    (run fixtureStore argsBinaryAndFilter).events.all
      (fun e => !(isTechEvent e)) = true ∧
    (run fixtureStore argsBinaryAndFilter).events.all
      (fun e => e != OutEvent.infoMsg "Supplied binary: find") = true := by
  exact ⟨by decide, by decide, by decide⟩

end Gtfo
